import Mathlib

/-!
Verification of the SilentCut adaptive silence-threshold search
(silentcut/audio/processor.py and
silentcut/gui/controllers/desilencer_controller.py).

Numeric values (dBFS thresholds, size ratios) are modelled over ℚ.
Byte sizes are ℕ, and the truncating Python int() conversions are ⌊·⌋.
The external splitter/encoder is an oracle: for each threshold it yields a
SplitOutcome (an exception or a chunk count) and an ExportOutcome (an
exception or an exported byte size); everything downstream of the oracle is
translated directly from the source.
-/

namespace VoiceMatch

/-- Status field of the dict returned by test_threshold in processor.py
("success" / "no_chunks" / "error"). -/
inductive TTStatus
  | success
  | noChunks
  | error
deriving DecidableEq

/-- The dict returned by test_threshold: threshold, status, output size,
size ratio, chunk count, and the error message (empty unless status error). -/
structure TTResult where
  threshold : ℚ
  status : TTStatus
  size : ℕ
  ratio : ℚ
  chunkCount : ℕ
  errMsg : String
deriving DecidableEq

/-- Outcome of split_on_silence for one call: raise an exception or return a
list of chunks, abstracted to its length. -/
inductive SplitOutcome
  | raises (msg : String)
  | chunks (n : ℕ)
deriving DecidableEq

/-- Outcome of output_audio.export plus os.path.getsize for one call: raise
an exception or produce a file of the given byte size. -/
inductive ExportOutcome
  | raises (msg : String)
  | size (n : ℕ)
deriving DecidableEq

/-- MIN_THRESHOLD constant (processor.py line 13). -/
def MIN_THRESHOLD : ℚ := -100

/-- MAX_THRESHOLD constant (processor.py line 14). -/
def MAX_THRESHOLD : ℚ := 0

/-- MIN_SIZE_RATIO constant (processor.py line 22). -/
def minSizeRatio : ℚ := 1/2

/-- MAX_SIZE_RATIO constant (processor.py line 23). -/
def maxSizeRatio : ℚ := 99/100

/-- MAX_SEARCH_ATTEMPTS constant (processor.py line 26). -/
def MAX_SEARCH_ATTEMPTS : ℕ := 40

/-- ADAPTIVE_THRESHOLD_OFFSET constant (processor.py line 19). -/
def ADAPTIVE_THRESHOLD_OFFSET : ℚ := 30

/-- PRESET_THRESHOLDS constant (processor.py line 29). -/
def PRESET_THRESHOLDS : List ℚ :=
  [-90, -80, -70, -60, -50, -45, -40, -35, -30, -25, -20, -15, -10]

/-- Executable floor of a rational, used for the truncating int()
conversions; it agrees with the mathematical floor (ratFloor_eq below). -/
def ratFloor (q : ℚ) : ℤ := q.num / q.den

/-- min_acceptable_size = int(input_size * MIN_SIZE_RATIO) (line 90). -/
def min_acceptable_size (inputSize : ℕ) : ℤ := ratFloor ((inputSize : ℚ) * minSizeRatio)

/-- max_acceptable_size = int(input_size * MAX_SIZE_RATIO) (line 91). -/
def max_acceptable_size (inputSize : ℕ) : ℤ := ratFloor ((inputSize : ℚ) * maxSizeRatio)

/-- Round to the nearest integer with ties to even, as Python round does. -/
def roundHalfEven (x : ℚ) : ℤ :=
  if x - ratFloor x < 1/2 then ratFloor x
  else if 1/2 < x - ratFloor x then ratFloor x + 1
  else if ratFloor x % 2 = 0 then ratFloor x else ratFloor x + 1

/-- round(x, 1): quantization of a candidate threshold to 0.1 dBFS
(processor.py line 240). -/
def round1 (x : ℚ) : ℚ := (roundHalfEven (x * 10) : ℚ) / 10

/-- The body of test_threshold (processor.py lines 129-177) before the
enclosing except handler: split, empty-chunk check, export, size/ratio. -/
def test_threshold_body (inputSize : ℕ) (split : SplitOutcome)
    (exportOut : ExportOutcome) (threshold : ℚ) : Except String TTResult :=
  match split with
  | SplitOutcome.raises m => Except.error m
  | SplitOutcome.chunks 0 =>
      Except.ok ⟨threshold, TTStatus.noChunks, 0, 0, 0, ""⟩
  | SplitOutcome.chunks (n + 1) =>
      match exportOut with
      | ExportOutcome.raises m => Except.error m
      | ExportOutcome.size sz =>
          Except.ok ⟨threshold, TTStatus.success, sz,
            (sz : ℚ) / (inputSize : ℚ), n + 1, ""⟩

/-- test_threshold (processor.py lines 125-184): the body with its except
handler, which converts any exception into a status-error result. -/
def test_threshold (inputSize : ℕ) (split : SplitOutcome)
    (exportOut : ExportOutcome) (threshold : ℚ) : TTResult :=
  match test_threshold_body inputSize split exportOut threshold with
  | Except.ok r => r
  | Except.error m => ⟨threshold, TTStatus.error, 0, 0, 0, m⟩

/-- Evaluate one threshold through the splitter/encoder oracle env. -/
def evalAt (inputSize : ℕ) (env : ℚ → SplitOutcome × ExportOutcome)
    (t : ℚ) : TTResult :=
  test_threshold inputSize (env t).1 (env t).2 t

/-- The final strict size check on the exported best result
(processor.py lines 306-338), returning the success flag. -/
def final_size_check (inputSize finalSize : ℕ) : Bool :=
  let minA := min_acceptable_size inputSize
  let ratio : ℚ := (finalSize : ℚ) / (inputSize : ℚ)
  if minA < (finalSize : ℤ) ∧ (finalSize : ℤ) < (inputSize : ℤ) then true
  else if (inputSize : ℤ) ≤ (finalSize : ℤ) then decide (ratio < 101/100)
  else if (finalSize : ℤ) ≤ minA then decide (minSizeRatio * (9/10) < ratio)
  else false

/-- os.path.join. -/
def join_path (a b : String) : String := a ++ "/" ++ b

/-- The output file name f-string (processor.py line 77). -/
def output_file_name (name ext : String) : String := name ++ "-desilenced" ++ ext

/-- Output directory choice (processor.py lines 79-85): a truthy, existing
directory is used as given, anything else falls back to the input dir. -/
def resolve_output_dir (inputDir : String) (outputFolder : Option String)
    (isdir : String → Bool) : String :=
  match outputFolder with
  | none => inputDir
  | some f => if f ≠ "" ∧ isdir f = true then f else inputDir

/-- output_path (processor.py line 87). -/
def output_path_of (inputDir name ext : String) (outputFolder : Option String)
    (isdir : String → Bool) : String :=
  join_path (resolve_output_dir inputDir outputFolder isdir)
    (output_file_name name ext)

/-- Adaptive initial threshold (processor.py lines 95-118), taking the
already-filtered per-second loudness samples and the average dBFS. -/
def initial_threshold (averageDbfs : ℚ) (samples : List ℚ) : ℚ :=
  match samples with
  | [] => averageDbfs - ADAPTIVE_THRESHOLD_OFFSET
  | s :: rest =>
      let maxDbfs := rest.foldl max s
      let minDbfs := rest.foldl min s
      let dynamicRange := maxDbfs - minDbfs
      let it := minDbfs + min (dynamicRange * (3/10)) ADAPTIVE_THRESHOLD_OFFSET
      max MIN_THRESHOLD (min it (MAX_THRESHOLD - 20))

/-- Mutable locals of the bisection loop (processor.py lines 207-237), plus
evalLog, a ghost trace of the thresholds passed to test_threshold. -/
structure SearchSt where
  low : ℚ
  high : ℚ
  current : ℚ
  tested : List ℚ
  evalLog : List ℚ
  best : Option TTResult
  attempts : ℕ
deriving DecidableEq

/-- The best-candidate update guard (processor.py line 256). -/
def improves (r : TTResult) (best : Option TTResult) : Bool :=
  match best with
  | none => true
  | some b => decide (|r.ratio - 7/10| < |b.ratio - 7/10|)

/-- The end-of-iteration bracket width check (processor.py lines 286-288):
the Bool is the continue flag of the loop. -/
def width_break (s : SearchSt) : SearchSt × Bool :=
  (s, !decide (s.high - s.low < 1))

/-- The in-loop range adjustment (processor.py lines 269-278). -/
def adjust_range (minA maxA sz : ℤ) (s : SearchSt) : SearchSt :=
  if maxA < sz then { s with high := s.current, current := (s.low + s.current) / 2 }
  else if sz < minA then { s with low := s.current, current := (s.current + s.high) / 2 }
  else s

/-- One iteration of the bisection while-loop (processor.py lines 236-288).
Returns the new state and the continue flag (false means break). -/
def bisectStep (minA maxA : ℤ) (ev : ℚ → TTResult) (s : SearchSt) :
    SearchSt × Bool :=
  let s0 := { s with attempts := s.attempts + 1 }
  let cr := round1 s0.current
  if cr ∈ s0.tested then
    ({ s0 with current := s0.current + 2/10 }, true)
  else
    let r := ev cr
    let s1 := { s0 with tested := s0.tested ++ [cr], evalLog := s0.evalLog ++ [cr] }
    if r.status = TTStatus.success then
      if minA ≤ (r.size : ℤ) ∧ (r.size : ℤ) ≤ maxA then
        if improves r s1.best then
          let s2 := { s1 with best := some r }
          if |r.ratio - 7/10| < 1/20 then (s2, false)
          else width_break (adjust_range minA maxA (r.size : ℤ) s2)
        else width_break (adjust_range minA maxA (r.size : ℤ) s1)
      else width_break (adjust_range minA maxA (r.size : ℤ) s1)
    else
      width_break { s1 with low := s1.current, current := (s1.current + s1.high) / 2 }

/-- Fuel-indexed unfolding of the while attempts < MAX_SEARCH_ATTEMPTS loop
(processor.py line 236). -/
def bisectGo (minA maxA : ℤ) (ev : ℚ → TTResult) : ℕ → SearchSt → SearchSt
  | 0, s => s
  | n + 1, s =>
      if s.attempts < MAX_SEARCH_ATTEMPTS then
        let p := bisectStep minA maxA ev s
        if p.2 then bisectGo minA maxA ev n p.1 else p.1
      else s

/-- The bisection loop run with enough fuel for its attempt budget. -/
def runBisect (minA maxA : ℤ) (ev : ℚ → TTResult) (s : SearchSt) : SearchSt :=
  bisectGo minA maxA ev MAX_SEARCH_ATTEMPTS s

/-- Stable insertion into a sorted list: the new element goes in front of
the first element it compares le to, so earlier elements stay in front of
later equal-key elements. -/
def stableInsert (le : TTResult → TTResult → Bool) (a : TTResult) :
    List TTResult → List TTResult
  | [] => [a]
  | b :: bs => if le a b then a :: b :: bs else b :: stableInsert le a bs

/-- Stable insertion sort, modelling Python's stable list.sort. -/
def stableSort (le : TTResult → TTResult → Bool) : List TTResult → List TTResult
  | [] => []
  | a :: as => stableInsert le a (stableSort le as)

/-- preset_results (processor.py lines 186-191): evaluate every preset and
keep the successes. -/
def preset_probe_results (inputSize : ℕ)
    (env : ℚ → SplitOutcome × ExportOutcome) : List TTResult :=
  (PRESET_THRESHOLDS.map (evalAt inputSize env)).filter
    (fun r => decide (r.status = TTStatus.success))

/-- valid_presets (processor.py line 194): preset successes inside the
acceptance band. -/
def valid_presets (minA maxA : ℤ) (presetResults : List TTResult) : List TTResult :=
  presetResults.filter
    (fun r => decide (minA ≤ (r.size : ℤ) ∧ (r.size : ℤ) ≤ maxA))

/-- Initial bracket of the bisection (processor.py lines 207-223): the full
range, tightened from preset results when any overshot or undershot. -/
def initBracket (minA maxA : ℤ) (presetResults : List TTResult) : ℚ × ℚ :=
  let larger := presetResults.filter (fun r => decide (maxA < (r.size : ℤ)))
  let smaller := presetResults.filter (fun r => decide ((r.size : ℤ) < minA))
  let high :=
    match (stableSort (fun a b => decide (a.size ≤ b.size)) larger).head? with
    | some r => r.threshold
    | none => MAX_THRESHOLD
  let low :=
    match (stableSort (fun a b => decide (b.size ≤ a.size)) smaller).head? with
    | some r => r.threshold
    | none => MIN_THRESHOLD
  (low, high)

/-- Outcome of the threshold-search stage of process_audio: the chosen best
candidate, the bisection-stage evaluation trace, and the trace of every
threshold handed to test_threshold in the whole run. -/
structure SearchResult where
  best : Option TTResult
  bisectLog : List ℚ
  fullLog : List ℚ
deriving DecidableEq

/-- The search stage of process_audio (processor.py lines 186-290): preset
probe, preset short-circuit sorted by distance of the ratio from 0.7, and
otherwise the bisection loop from the tightened bracket. -/
def process_search (inputSize : ℕ) (env : ℚ → SplitOutcome × ExportOutcome)
    (initialThr : ℚ) : SearchResult :=
  let minA := min_acceptable_size inputSize
  let maxA := max_acceptable_size inputSize
  let presetResults := preset_probe_results inputSize env
  let valid := valid_presets minA maxA presetResults
  if valid = [] then
    let lh := initBracket minA maxA presetResults
    let s0 : SearchSt := ⟨lh.1, lh.2, initialThr, [], [], none, 0⟩
    let sF := runBisect minA maxA (evalAt inputSize env) s0
    ⟨sF.best, sF.evalLog, PRESET_THRESHOLDS ++ sF.evalLog⟩
  else
    ⟨(stableSort (fun a b => decide (|a.ratio - 7/10| ≤ |b.ratio - 7/10|)) valid).head?,
      [], PRESET_THRESHOLDS⟩

/-- valid_results collection of the concurrent controller
(desilencer_controller.py lines 297-305): successes inside the band, in
arrival order. -/
def collect_valid (minA maxA : ℤ) (arrivals : List TTResult) : List TTResult :=
  arrivals.filter (fun r =>
    decide (r.status = TTStatus.success) &&
    decide (minA ≤ (r.size : ℤ) ∧ (r.size : ℤ) ≤ maxA))

/-- Best-candidate selection of the concurrent controller
(desilencer_controller.py lines 329-331): stable sort by distance of the
ratio from 0.75, then the first element. -/
def select_best_parallel (valid : List TTResult) : Option TTResult :=
  (stableSort (fun a b => decide (|a.ratio - 3/4| ≤ |b.ratio - 3/4|)) valid).head?

/-- The threshold chosen by process_single_file_parallel from the arrival
order of worker results. -/
def parallel_choice (minA maxA : ℤ) (arrivals : List TTResult) : Option ℚ :=
  (select_best_parallel (collect_valid minA maxA arrivals)).map
    (fun r => r.threshold)

/-- Boolean prefix test on character lists. -/
def charsPrefix : List Char → List Char → Bool
  | [], _ => true
  | _ :: _, [] => false
  | a :: as, b :: bs => (a == b) && charsPrefix as bs

/-- Boolean contiguous-substring test on character lists. -/
def containsChars (p : List Char) : List Char → Bool
  | [] => charsPrefix p []
  | b :: bs => charsPrefix p (b :: bs) || containsChars p bs

/-- Substring occurrence test on strings. -/
def strContains (p s : String) : Bool := containsChars p.data s.data

/-- Decimal-style rendering of a threshold value into a file name. -/
def thresholdStr (t : ℚ) : String :=
  if t.den = 1 then toString t.num else toString t.num ++ "/" ++ toString t.den

/-- Path produced by tempfile.NamedTemporaryFile(suffix=".wav") from the
random token the library draws (processor.py lines 154-155). -/
def named_temporary_file (token : String) : String := "/tmp/tmp" ++ token ++ ".wav"

/-- Scratch path used by the sequential evaluator test_threshold
(processor.py lines 152-158): the OS temp name, with the threshold under
test in scope but unused in the name. -/
def seq_temp_path (threshold : ℚ) (token : String) : String :=
  named_temporary_file token

/-- Scratch path used by the concurrent evaluator test_threshold_task
(desilencer_controller.py lines 73-75). -/
def task_temp_path (outputDir name : String) (threshold : ℚ)
    (timeToken : String) : String :=
  join_path outputDir
    (name ++ "_thresh_" ++ thresholdStr threshold ++ "_" ++ timeToken ++ ".temp.wav")

/-- The inputs process_audio consumes: whether load_audio succeeded, the
getsize outcome, the splitter oracle, loudness statistics, the final-export
outcome, and the path ingredients. -/
structure ProcParams where
  audioLoaded : Bool
  sizeOutcome : Except String ℕ
  env : ℚ → SplitOutcome × ExportOutcome
  averageDbfs : ℚ
  samples : List ℚ
  finalExportOutcome : Except String ℕ
  inputDir : String
  fileName : String
  extName : String
  outputFolder : Option String
  isdir : String → Bool

/-- The try-block body of process_audio (processor.py lines 70-342):
sizing, output path, search, final export and the strict size check. -/
def process_audio_body (p : ProcParams) : Except String (Bool × String) :=
  match p.sizeOutcome with
  | Except.error e => Except.error e
  | Except.ok inputSize =>
      let outPath := output_path_of p.inputDir p.fileName p.extName
        p.outputFolder p.isdir
      let sr := process_search inputSize p.env
        (initial_threshold p.averageDbfs p.samples)
      match sr.best with
      | none => Except.ok (false, "无法找到合适的阈值处理文件")
      | some _ =>
          match p.finalExportOutcome with
          | Except.error e => Except.error e
          | Except.ok finalSize =>
              Except.ok (final_size_check inputSize finalSize,
                if final_size_check inputSize finalSize then outPath
                else "大小不符合要求")

/-- process_audio (processor.py lines 54-346): the unloaded-audio early
return and the outer except handler around the body. -/
def process_audio (p : ProcParams) : Bool × String :=
  if p.audioLoaded = false then (false, "音频未加载")
  else
    match process_audio_body p with
    | Except.ok r => r
    | Except.error e => (false, "处理错误: " ++ e)

/-- Evaluation oracle that reports no non-silent chunks at every threshold. -/
def evNoChunks : ℚ → TTResult := fun t => ⟨t, TTStatus.noChunks, 0, 0, 0, ""⟩

/-- A fresh bisection state over the full threshold range. -/
def sInit : SearchSt := ⟨MIN_THRESHOLD, MAX_THRESHOLD, -50, [], [], none, 0⟩

/-- Splitter oracle where every split finds no chunks. -/
def envAllNoChunks : ℚ → SplitOutcome × ExportOutcome :=
  fun _ => (SplitOutcome.chunks 0, ExportOutcome.size 0)

/-- Splitter oracle where the lowest preset overshoots the band and the
highest preset undershoots it (output size is not monotone in threshold). -/
def envInverted : ℚ → SplitOutcome × ExportOutcome :=
  fun t =>
    if t = -90 then (SplitOutcome.chunks 1, ExportOutcome.size 995)
    else if t = -10 then (SplitOutcome.chunks 1, ExportOutcome.size 100)
    else (SplitOutcome.raises "boom", ExportOutcome.size 0)

/-- Splitter oracle where every threshold exports 700 of 1000 bytes, so
every preset probe is a valid in-band candidate. -/
def envAllValid : ℚ → SplitOutcome × ExportOutcome :=
  fun _ => (SplitOutcome.chunks 1, ExportOutcome.size 700)

/-- A parameter record whose audio failed to load. -/
def pUnloaded : ProcParams :=
  ⟨false, Except.error "getsize failed", envAllNoChunks, 0, [],
    Except.ok 0, "/in", "a", ".wav", none, fun _ => false⟩

/-- An in-band worker result with ratio 0.70 at threshold -40. -/
def rSeventy : TTResult := ⟨-40, TTStatus.success, 700, 7/10, 3, ""⟩

/-- An in-band worker result with ratio 0.80 at threshold -30, tying with
rSeventy in distance from the concurrent target ratio 0.75. -/
def rEighty : TTResult := ⟨-30, TTStatus.success, 800, 8/10, 3, ""⟩

lemma ratFloor_eq (q : ℚ) : ratFloor q = ⌊q⌋ := by
  rw [Rat.floor_def]
  rfl

lemma min_acceptable_lt (n : ℕ) (h : 0 < n) :
    min_acceptable_size n < (n : ℤ) := by
  unfold min_acceptable_size minSizeRatio
  rw [ratFloor_eq, Int.floor_lt]
  have hn : (0 : ℚ) < (n : ℚ) := by exact_mod_cast h
  push_cast
  linarith

/-- C2: after the final export, process_audio accepts exactly when the final
size is strictly between the minimum acceptable size and the original size,
or is at least the original but within the 1% over-size tolerance
(ratio < 1.01), or is at most the minimum acceptable size but above the 90%
under-size tolerance (ratio > 0.5 * 0.9); every other case is rejected. -/
theorem C2_final_acceptance (inputSize finalSize : ℕ) (h : 0 < inputSize) :
    final_size_check inputSize finalSize = true ↔
      (min_acceptable_size inputSize < (finalSize : ℤ) ∧ finalSize < inputSize)
      ∨ (inputSize ≤ finalSize ∧
          (finalSize : ℚ) / (inputSize : ℚ) < 101/100)
      ∨ ((finalSize : ℤ) ≤ min_acceptable_size inputSize ∧
          minSizeRatio * (9/10) < (finalSize : ℚ) / (inputSize : ℚ)) := by
  have hmin : min_acceptable_size inputSize < (inputSize : ℤ) :=
    min_acceptable_lt inputSize h
  unfold final_size_check
  dsimp only
  split_ifs with h1 h2 h3
  · exact iff_of_true rfl (Or.inl ⟨h1.1, by exact_mod_cast h1.2⟩)
  · rw [decide_eq_true_eq]
    constructor
    · intro hr
      exact Or.inr (Or.inl ⟨by exact_mod_cast h2, hr⟩)
    · rintro (⟨ha, hb⟩ | ⟨ha, hb⟩ | ⟨ha, hb⟩)
      · have : (finalSize : ℤ) < (inputSize : ℤ) := by exact_mod_cast hb
        omega
      · exact hb
      · omega
  · rw [decide_eq_true_eq]
    constructor
    · intro hr
      exact Or.inr (Or.inr ⟨h3, hr⟩)
    · rintro (⟨ha, hb⟩ | ⟨ha, hb⟩ | ⟨ha, hb⟩)
      · omega
      · have : (inputSize : ℤ) ≤ (finalSize : ℤ) := by exact_mod_cast ha
        omega
      · exact hb
  · constructor
    · intro hc
      exact absurd hc (by simp)
    · rintro (⟨ha, hb⟩ | ⟨ha, hb⟩ | ⟨ha, hb⟩)
      · exact absurd ⟨ha, by exact_mod_cast hb⟩ h1
      · exact absurd (by exact_mod_cast ha : (inputSize : ℤ) ≤ (finalSize : ℤ)) h2
      · exact absurd ha h3

theorem C2_final_acceptance_witness :
    final_size_check 1000 700 = true ↔
      (min_acceptable_size 1000 < (700 : ℤ) ∧ 700 < 1000)
      ∨ (1000 ≤ 700 ∧ (700 : ℚ) / (1000 : ℚ) < 101/100)
      ∨ ((700 : ℤ) ≤ min_acceptable_size 1000 ∧
          minSizeRatio * (9/10) < (700 : ℚ) / (1000 : ℚ)) :=
  C2_final_acceptance 1000 700 (by decide)

/-- C10: when an output folder is supplied but is not an existing directory,
process_audio falls back to the input file directory, and the final artifact
path is the input directory joined with name-desilenced plus extension. -/
theorem C10_output_folder_fallback (inputDir name extName f : String)
    (isdir : String → Bool) (h : isdir f = false) :
    output_path_of inputDir name extName (some f) isdir =
      join_path inputDir (output_file_name name extName) := by
  unfold output_path_of resolve_output_dir
  have hng : ¬ (f ≠ "" ∧ isdir f = true) := by
    rintro ⟨-, hc⟩
    rw [h] at hc
    exact Bool.false_ne_true hc
  dsimp only
  rw [if_neg hng]

theorem C10_output_folder_fallback_witness :
    output_path_of "/data/in" "song" ".wav" (some "/no/such/dir")
        (fun _ => false) =
      join_path "/data/in" (output_file_name "song" ".wav") :=
  C10_output_folder_fallback "/data/in" "song" ".wav" "/no/such/dir"
    (fun _ => false) rfl

/-- C7: test_threshold is total at the boundary: an empty chunk list yields a
NoChunks candidate with size 0 and ratio 0, an exception from split or from
export yields an Error candidate carrying the message, and every exception of
the body is converted into a candidate instead of propagating. -/
theorem C7_test_threshold_total (inputSize : ℕ) (split : SplitOutcome)
    (exportOut : ExportOutcome) (t : ℚ) :
    (split = SplitOutcome.chunks 0 →
      test_threshold inputSize split exportOut t =
        ⟨t, TTStatus.noChunks, 0, 0, 0, ""⟩)
    ∧ (∀ m, split = SplitOutcome.raises m →
      test_threshold inputSize split exportOut t =
        ⟨t, TTStatus.error, 0, 0, 0, m⟩)
    ∧ (∀ n m, split = SplitOutcome.chunks (n + 1) →
      exportOut = ExportOutcome.raises m →
      test_threshold inputSize split exportOut t =
        ⟨t, TTStatus.error, 0, 0, 0, m⟩)
    ∧ (∀ e, test_threshold_body inputSize split exportOut t = Except.error e →
      test_threshold inputSize split exportOut t =
        ⟨t, TTStatus.error, 0, 0, 0, e⟩) := by
  refine ⟨?_, ?_, ?_, ?_⟩
  · intro hs
    subst hs
    rfl
  · intro m hs
    subst hs
    rfl
  · intro n m hs he
    subst hs
    subst he
    rfl
  · intro e he
    unfold test_threshold
    rw [he]

theorem C7_test_threshold_total_witness :
    test_threshold 1000 (SplitOutcome.chunks 0) (ExportOutcome.size 5) (-50) =
      ⟨-50, TTStatus.noChunks, 0, 0, 0, ""⟩ :=
  (C7_test_threshold_total 1000 (SplitOutcome.chunks 0)
    (ExportOutcome.size 5) (-50)).1 rfl

lemma bisectStep_attempts (minA maxA : ℤ) (ev : ℚ → TTResult) (s : SearchSt) :
    ((bisectStep minA maxA ev s).1).attempts = s.attempts + 1 := by
  unfold bisectStep width_break adjust_range
  dsimp only
  split_ifs <;> rfl

lemma bisectGo_attempts_le (minA maxA : ℤ) (ev : ℚ → TTResult) :
    ∀ (n : ℕ) (s : SearchSt), s.attempts ≤ MAX_SEARCH_ATTEMPTS →
    (bisectGo minA maxA ev n s).attempts ≤ MAX_SEARCH_ATTEMPTS := by
  intro n
  induction n with
  | zero => intro s hs; exact hs
  | succ n ih =>
      intro s hs
      unfold bisectGo
      dsimp only
      split_ifs with hlt hc
      · exact ih _ (by rw [bisectStep_attempts]; omega)
      · rw [bisectStep_attempts]; omega
      · exact hs

lemma bisectGo_stop (minA maxA : ℤ) (ev : ℚ → TTResult) :
    ∀ (n : ℕ) (s : SearchSt), ¬ s.attempts < MAX_SEARCH_ATTEMPTS →
    bisectGo minA maxA ev n s = s := by
  intro n
  induction n with
  | zero => intro s _; rfl
  | succ n _ =>
      intro s hs
      unfold bisectGo
      rw [if_neg hs]

lemma bisectGo_fuel (minA maxA : ℤ) (ev : ℚ → TTResult) :
    ∀ (n m : ℕ) (s : SearchSt),
    MAX_SEARCH_ATTEMPTS ≤ s.attempts + n → MAX_SEARCH_ATTEMPTS ≤ s.attempts + m →
    bisectGo minA maxA ev n s = bisectGo minA maxA ev m s := by
  intro n
  induction n with
  | zero =>
      intro m s hn hm
      have hstop : ¬ s.attempts < MAX_SEARCH_ATTEMPTS := by omega
      rw [bisectGo_stop minA maxA ev 0 s hstop, bisectGo_stop minA maxA ev m s hstop]
  | succ n ih =>
      intro m s hn hm
      by_cases hlt : s.attempts < MAX_SEARCH_ATTEMPTS
      · cases m with
        | zero => omega
        | succ m =>
            unfold bisectGo
            rw [if_pos hlt, if_pos hlt]
            dsimp only
            by_cases hc : (bisectStep minA maxA ev s).2 = true
            · rw [if_pos hc, if_pos hc]
              refine ih m _ ?_ ?_ <;> rw [bisectStep_attempts] <;> omega
            · rw [if_neg hc, if_neg hc]
      · rw [bisectGo_stop minA maxA ev (n + 1) s hlt, bisectGo_stop minA maxA ev m s hlt]

lemma width_break_continue (s u : SearchSt) (h : width_break s = (u, true)) :
    1 ≤ u.high - u.low := by
  unfold width_break at h
  injection h with h1 h2
  subst h1
  have hd : decide (s.high - s.low < 1) = false := by
    cases hb : decide (s.high - s.low < 1)
    · rfl
    · rw [hb] at h2; exact absurd h2 (by simp)
  have := of_decide_eq_false hd
  linarith [not_lt.mp this]

lemma bisectStep_width (minA maxA : ℤ) (ev : ℚ → TTResult) (t u : SearchSt)
    (hnt : round1 t.current ∉ t.tested)
    (hstep : bisectStep minA maxA ev t = (u, true)) :
    1 ≤ u.high - u.low := by
  unfold bisectStep at hstep
  dsimp only at hstep
  rw [if_neg hnt] at hstep
  split at hstep
  · split at hstep
    · split at hstep
      · split at hstep
        · injection hstep with h1 h2
          exact absurd h2 (by simp)
        · exact width_break_continue _ _ hstep
      · exact width_break_continue _ _ hstep
    · exact width_break_continue _ _ hstep
  · exact width_break_continue _ _ hstep

/-- C1: the bisection loop terminates for every oracle and start state: it
runs at most MAX_SEARCH_ATTEMPTS = 40 iterations, extra fuel never changes
the result, every iteration (including skipped repeat candidates) increments
attempts by one, and any evaluated iteration whose bracket width has dropped
below 1 dB breaks out of the loop. -/
theorem C1_bisection_terminates (minA maxA : ℤ) (ev : ℚ → TTResult)
    (s : SearchSt) (h0 : s.attempts = 0) :
    (runBisect minA maxA ev s).attempts ≤ MAX_SEARCH_ATTEMPTS
    ∧ (∀ n, MAX_SEARCH_ATTEMPTS ≤ n →
        bisectGo minA maxA ev n s = runBisect minA maxA ev s)
    ∧ (∀ t : SearchSt, ((bisectStep minA maxA ev t).1).attempts = t.attempts + 1)
    ∧ (∀ t u : SearchSt, round1 t.current ∉ t.tested →
        bisectStep minA maxA ev t = (u, true) → 1 ≤ u.high - u.low) := by
  unfold runBisect
  refine ⟨?_, ?_, fun t => bisectStep_attempts minA maxA ev t,
    fun t u h1 h2 => bisectStep_width minA maxA ev t u h1 h2⟩
  · exact bisectGo_attempts_le minA maxA ev MAX_SEARCH_ATTEMPTS s (by omega)
  · intro n hn
    exact bisectGo_fuel minA maxA ev n MAX_SEARCH_ATTEMPTS s (by omega) (by omega)

theorem C1_bisection_terminates_witness :
    (runBisect 500 990 evNoChunks sInit).attempts ≤ MAX_SEARCH_ATTEMPTS
    ∧ (∀ n, MAX_SEARCH_ATTEMPTS ≤ n →
        bisectGo 500 990 evNoChunks n sInit = runBisect 500 990 evNoChunks sInit)
    ∧ (∀ t : SearchSt, ((bisectStep 500 990 evNoChunks t).1).attempts = t.attempts + 1)
    ∧ (∀ t u : SearchSt, round1 t.current ∉ t.tested →
        bisectStep 500 990 evNoChunks t = (u, true) → 1 ≤ u.high - u.low) :=
  C1_bisection_terminates 500 990 evNoChunks sInit rfl

unseal Rat.mul Rat.add Rat.inv Rat.sub in
/-- C3 counterexample: with input size 1000 and a splitter for which the
lowest preset (-90) overshoots the band (995 bytes) while the highest preset
(-10) undershoots it (100 bytes), the preset tightening of the initial
bracket sets high = -90 and low = -10, so the claimed low ≤ high invariant is
already violated when the bisection starts. -/
theorem C3_bracket_inversion_cex :
    (initBracket (min_acceptable_size 1000) (max_acceptable_size 1000)
      (preset_probe_results 1000 envInverted)).2 <
    (initBracket (min_acceptable_size 1000) (max_acceptable_size 1000)
      (preset_probe_results 1000 envInverted)).1 := by decide

/-- C3 (amended): every in-loop adjustment made from a state whose current
candidate lies inside the bracket preserves low ≤ high and only narrows the
interval; the invariant is not unconditional, since the preset tightening can
invert the bracket and a candidate outside it can widen it. -/
theorem C3_bracket_step_invariant (minA maxA : ℤ) (ev : ℚ → TTResult)
    (s : SearchSt) (hl : s.low ≤ s.current) (hh : s.current ≤ s.high) :
    s.low ≤ ((bisectStep minA maxA ev s).1).low
    ∧ ((bisectStep minA maxA ev s).1).high ≤ s.high
    ∧ ((bisectStep minA maxA ev s).1).low ≤ ((bisectStep minA maxA ev s).1).high := by
  unfold bisectStep width_break adjust_range
  dsimp only
  split_ifs <;> refine ⟨?_, ?_, ?_⟩ <;> dsimp only <;> linarith

theorem C3_bracket_step_invariant_witness :
    sInit.low ≤ ((bisectStep 500 990 evNoChunks sInit).1).low
    ∧ ((bisectStep 500 990 evNoChunks sInit).1).high ≤ sInit.high
    ∧ ((bisectStep 500 990 evNoChunks sInit).1).low ≤
        ((bisectStep 500 990 evNoChunks sInit).1).high :=
  C3_bracket_step_invariant 500 990 evNoChunks sInit (by decide) (by decide)

lemma roundHalfEven_intCast (k : ℤ) : roundHalfEven (k : ℚ) = k := by
  unfold roundHalfEven
  rw [ratFloor_eq, Int.floor_intCast, sub_self]
  norm_num

lemma round1_idem (x : ℚ) : round1 (round1 x) = round1 x := by
  unfold round1
  have h : ((roundHalfEven (x * 10) : ℚ) / 10) * 10 = (roundHalfEven (x * 10) : ℚ) := by
    ring
  rw [h, roundHalfEven_intCast]

lemma bisectStep_log_inv (minA maxA : ℤ) (ev : ℚ → TTResult) (s : SearchSt)
    (h1 : s.tested = s.evalLog) (h2 : s.evalLog.Nodup)
    (h3 : ∀ x ∈ s.evalLog, round1 x = x) :
    ((bisectStep minA maxA ev s).1).tested = ((bisectStep minA maxA ev s).1).evalLog
    ∧ ((bisectStep minA maxA ev s).1).evalLog.Nodup
    ∧ ∀ x ∈ ((bisectStep minA maxA ev s).1).evalLog, round1 x = x := by
  by_cases hmem : round1 s.current ∈ s.tested
  · unfold bisectStep
    dsimp only
    rw [if_pos hmem]
    exact ⟨h1, h2, h3⟩
  · have hm2 : round1 s.current ∉ s.evalLog := h1 ▸ hmem
    have htested : s.tested ++ [round1 s.current] = s.evalLog ++ [round1 s.current] := by
      rw [h1]
    have hnodup : (s.evalLog ++ [round1 s.current]).Nodup := by
      simp only [List.nodup_append, List.nodup_singleton, true_and]
      exact ⟨h2, by simpa [List.disjoint_singleton] using hm2⟩
    have hquant : ∀ x ∈ s.evalLog ++ [round1 s.current], round1 x = x := by
      intro x hx
      rcases List.mem_append.mp hx with hx | hx
      · exact h3 x hx
      · rw [List.mem_singleton.mp hx]
        exact round1_idem s.current
    unfold bisectStep width_break adjust_range
    dsimp only
    rw [if_neg hmem]
    split_ifs <;> exact ⟨htested, hnodup, hquant⟩

lemma bisectGo_log_inv (minA maxA : ℤ) (ev : ℚ → TTResult) :
    ∀ (n : ℕ) (s : SearchSt), s.tested = s.evalLog → s.evalLog.Nodup →
    (∀ x ∈ s.evalLog, round1 x = x) →
    ((bisectGo minA maxA ev n s).tested = (bisectGo minA maxA ev n s).evalLog
    ∧ (bisectGo minA maxA ev n s).evalLog.Nodup
    ∧ ∀ x ∈ (bisectGo minA maxA ev n s).evalLog, round1 x = x) := by
  intro n
  induction n with
  | zero => intro s h1 h2 h3; exact ⟨h1, h2, h3⟩
  | succ n ih =>
      intro s h1 h2 h3
      unfold bisectGo
      dsimp only
      split_ifs with hlt hc
      · obtain ⟨g1, g2, g3⟩ := bisectStep_log_inv minA maxA ev s h1 h2 h3
        exact ih _ g1 g2 g3
      · exact bisectStep_log_inv minA maxA ev s h1 h2 h3
      · exact ⟨h1, h2, h3⟩

/-- C6 (amended): within the bisection stage the no-re-probe property holds:
starting from a consistent tested map, every threshold in the evaluation
trace is 0.1-quantized and no quantized threshold is evaluated twice. The
property does not extend across the preset-probe stage boundary, because the
tested map starts empty after the presets were probed, so a preset threshold
can be re-evaluated once by the bisection stage. -/
theorem C6_no_reprobe_within_bisection (minA maxA : ℤ) (ev : ℚ → TTResult)
    (s : SearchSt) (h1 : s.tested = s.evalLog) (h2 : s.evalLog.Nodup)
    (h3 : ∀ x ∈ s.evalLog, round1 x = x) :
    (runBisect minA maxA ev s).evalLog.Nodup
    ∧ ∀ x ∈ (runBisect minA maxA ev s).evalLog, round1 x = x := by
  obtain ⟨-, g2, g3⟩ :=
    bisectGo_log_inv minA maxA ev MAX_SEARCH_ATTEMPTS s h1 h2 h3
  exact ⟨g2, g3⟩

theorem C6_no_reprobe_within_bisection_witness :
    (runBisect 500 990 evNoChunks sInit).evalLog.Nodup
    ∧ ∀ x ∈ (runBisect 500 990 evNoChunks sInit).evalLog, round1 x = x :=
  C6_no_reprobe_within_bisection 500 990 evNoChunks sInit rfl (by decide)
    (by intro x hx; simp [sInit] at hx)

unseal Rat.mul Rat.add Rat.inv Rat.sub in
/-- C6 counterexample: with input size 1000, a loudness profile that makes
the adaptive initial threshold -50, and a splitter that never finds chunks,
the preset stage evaluates threshold -50 and the bisection stage evaluates
quantized threshold -50 again (the tested map restarted empty), so the full
evaluation trace of one run contains a duplicate quantized threshold. -/
theorem C6_cross_stage_reprobe_cex :
    ¬ (process_search 1000 envAllNoChunks
        (initial_threshold 0 [-80, 20])).fullLog.Nodup := by decide

lemma stableInsert_ne_nil (le : TTResult → TTResult → Bool) (a : TTResult)
    (l : List TTResult) : stableInsert le a l ≠ [] := by
  cases l with
  | nil => simp [stableInsert]
  | cons b bs =>
      unfold stableInsert
      split_ifs <;> simp

lemma stableSort_eq_nil (le : TTResult → TTResult → Bool) (l : List TTResult)
    (h : stableSort le l = []) : l = [] := by
  cases l with
  | nil => rfl
  | cons a as => exact absurd h (stableInsert_ne_nil le a (stableSort le as))

lemma stableSort_head_min (key : TTResult → ℚ) :
    ∀ (l : List TTResult) (m : TTResult),
    (stableSort (fun a b => decide (key a ≤ key b)) l).head? = some m →
    m ∈ l ∧ ∀ x ∈ l, key m ≤ key x := by
  intro l
  induction l with
  | nil => intro m hm; simp [stableSort] at hm
  | cons a as ih =>
      intro m hm
      unfold stableSort at hm
      cases hs : stableSort (fun a b => decide (key a ≤ key b)) as with
      | nil =>
          rw [hs] at hm
          unfold stableInsert at hm
          have hasnil : as = [] := stableSort_eq_nil _ as hs
          injection hm with hm
          subst hm
          subst hasnil
          exact ⟨List.mem_cons_self a [], by
            intro x hx
            rw [List.mem_singleton.mp hx]⟩
      | cons b bs =>
          rw [hs] at hm
          obtain ⟨hbmem, hbmin⟩ := ih b (by rw [hs]; rfl)
          unfold stableInsert at hm
          by_cases hab : (decide (key a ≤ key b) : Bool) = true
          · rw [if_pos hab] at hm
            injection hm with hm
            subst hm
            have hab2 : key a ≤ key b := of_decide_eq_true hab
            refine ⟨List.mem_cons_self a as, ?_⟩
            intro x hx
            rcases List.mem_cons.mp hx with hx | hx
            · rw [hx]
            · exact hab2.trans (hbmin x hx)
          · rw [if_neg hab] at hm
            injection hm with hm
            subst hm
            have hba : key b ≤ key a := by
              have := of_decide_eq_false (Bool.of_not_eq_true hab)
              exact le_of_not_le this
            refine ⟨List.mem_cons_of_mem a hbmem, ?_⟩
            intro x hx
            rcases List.mem_cons.mp hx with hx | hx
            · rw [hx]; exact hba
            · exact hbmin x hx

lemma stableSort_head_exists (le : TTResult → TTResult → Bool)
    (l : List TTResult) (h : l ≠ []) :
    ∃ m, (stableSort le l).head? = some m := by
  cases hs : stableSort le l with
  | nil => exact absurd (stableSort_eq_nil le l hs) h
  | cons b bs => exact ⟨b, rfl⟩

/-- C5: if at least one preset probe is a Success candidate inside the
acceptance band, the sequential search returns a valid preset candidate
minimizing the distance of the ratio from 0.7 and never enters the bisection
stage: its bisection evaluation trace is empty. -/
theorem C5_preset_short_circuit (inputSize : ℕ)
    (env : ℚ → SplitOutcome × ExportOutcome) (initialThr : ℚ)
    (hne : valid_presets (min_acceptable_size inputSize)
      (max_acceptable_size inputSize)
      (preset_probe_results inputSize env) ≠ []) :
    (process_search inputSize env initialThr).bisectLog = []
    ∧ ∃ b, (process_search inputSize env initialThr).best = some b
      ∧ b ∈ valid_presets (min_acceptable_size inputSize)
          (max_acceptable_size inputSize) (preset_probe_results inputSize env)
      ∧ ∀ v ∈ valid_presets (min_acceptable_size inputSize)
          (max_acceptable_size inputSize) (preset_probe_results inputSize env),
          |b.ratio - 7/10| ≤ |v.ratio - 7/10| := by
  unfold process_search
  dsimp only
  rw [if_neg hne]
  refine ⟨rfl, ?_⟩
  obtain ⟨m, hm⟩ := stableSort_head_exists
    (fun a b => decide (|a.ratio - 7/10| ≤ |b.ratio - 7/10|)) _ hne
  obtain ⟨hmem, hmin⟩ := stableSort_head_min (fun r => |r.ratio - 7/10|) _ m hm
  exact ⟨m, hm, hmem, hmin⟩

unseal Rat.mul Rat.add Rat.inv Rat.sub in
theorem C5_preset_short_circuit_witness :
    (process_search 1000 envAllValid 0).bisectLog = []
    ∧ ∃ b, (process_search 1000 envAllValid 0).best = some b
      ∧ b ∈ valid_presets (min_acceptable_size 1000) (max_acceptable_size 1000)
          (preset_probe_results 1000 envAllValid)
      ∧ ∀ v ∈ valid_presets (min_acceptable_size 1000) (max_acceptable_size 1000)
          (preset_probe_results 1000 envAllValid),
          |b.ratio - 7/10| ≤ |v.ratio - 7/10| :=
  C5_preset_short_circuit 1000 envAllValid 0 (by decide)

unseal Rat.mul Rat.add Rat.inv Rat.sub in
/-- C4 counterexample: the in-band results with ratios 0.70 (threshold -40)
and 0.80 (threshold -30) tie in distance from the target ratio 0.75; the two
arrival orders are permutations of each other, yet the stable sort keeps the
earlier arrival first, so one order selects threshold -40 and the other
selects -30: the concurrent choice depends on completion order. -/
theorem C4_order_dependence_cex :
    List.Perm [rSeventy, rEighty] [rEighty, rSeventy]
    ∧ parallel_choice 500 990 [rSeventy, rEighty] = some (-40)
    ∧ parallel_choice 500 990 [rEighty, rSeventy] = some (-30)
    ∧ parallel_choice 500 990 [rSeventy, rEighty] ≠
        parallel_choice 500 990 [rEighty, rSeventy] :=
  ⟨List.Perm.swap rEighty rSeventy [], by decide, by decide, by decide⟩

lemma select_best_parallel_unique (valid : List TTResult) (m : TTResult)
    (hm : m ∈ valid)
    (hu : ∀ x ∈ valid, x ≠ m → |m.ratio - 3/4| < |x.ratio - 3/4|) :
    select_best_parallel valid = some m := by
  unfold select_best_parallel
  have hne : valid ≠ [] := by
    intro h
    rw [h] at hm
    exact absurd hm (List.not_mem_nil m)
  obtain ⟨m₀, hm₀⟩ := stableSort_head_exists
    (fun a b => decide (|a.ratio - 3/4| ≤ |b.ratio - 3/4|)) valid hne
  obtain ⟨hmem, hmin⟩ := stableSort_head_min (fun r => |r.ratio - 3/4|) valid m₀ hm₀
  have heq : m₀ = m := by
    by_contra hne2
    exact absurd (hmin m hm) (not_le.mpr (hu m₀ hmem hne2))
  rw [hm₀, heq]

/-- C4 (amended): whenever the minimizer of the distance of the ratio from
0.75 among the collected in-band Success candidates is unique, the concurrent
selection is independent of completion order: every permutation of the
arrivals selects that minimizer's threshold. With ties, the stable sort keeps
the earliest arrival, so the chosen threshold can depend on completion
order. -/
theorem C4_order_independent_unique_min (minA maxA : ℤ) (l l₂ : List TTResult)
    (m : TTResult) (hperm : l.Perm l₂)
    (hm : m ∈ collect_valid minA maxA l)
    (hu : ∀ x ∈ collect_valid minA maxA l, x ≠ m →
      |m.ratio - 3/4| < |x.ratio - 3/4|) :
    parallel_choice minA maxA l = some m.threshold
    ∧ parallel_choice minA maxA l₂ = some m.threshold := by
  have hpf : (collect_valid minA maxA l).Perm (collect_valid minA maxA l₂) :=
    hperm.filter _
  have hm₂ : m ∈ collect_valid minA maxA l₂ := hpf.mem_iff.mp hm
  have hu₂ : ∀ x ∈ collect_valid minA maxA l₂, x ≠ m →
      |m.ratio - 3/4| < |x.ratio - 3/4| :=
    fun x hx => hu x (hpf.mem_iff.mpr hx)
  unfold parallel_choice
  rw [select_best_parallel_unique _ m hm hu,
    select_best_parallel_unique _ m hm₂ hu₂]
  exact ⟨rfl, rfl⟩

unseal Rat.mul Rat.add Rat.inv Rat.sub in
theorem C4_order_independent_unique_min_witness :
    parallel_choice 500 990 [rSeventy] = some rSeventy.threshold
    ∧ parallel_choice 500 990 [rSeventy] = some rSeventy.threshold :=
  C4_order_independent_unique_min 500 990 [rSeventy] [rSeventy] rSeventy
    (List.Perm.refl _) (by decide) (by decide)

lemma charsPrefix_self_append (p y : List Char) :
    charsPrefix p (p ++ y) = true := by
  induction p with
  | nil => rfl
  | cons c cs ih => simp [charsPrefix, ih]

lemma charsPrefix_implies_contains (p : List Char) :
    ∀ s, charsPrefix p s = true → containsChars p s = true := by
  intro s h
  cases s with
  | nil => exact h
  | cons b bs => simp [containsChars, h]

lemma containsChars_append_left (p s₁ s₂ : List Char)
    (h : containsChars p s₂ = true) : containsChars p (s₁ ++ s₂) = true := by
  induction s₁ with
  | nil => exact h
  | cons c cs ih => simp [containsChars, ih]

lemma strContains_of_eq_append (p pre post s : String)
    (h : s = pre ++ p ++ post) : strContains p s = true := by
  subst h
  unfold strContains
  simp only [String.data_append, List.append_assoc]
  exact containsChars_append_left _ _ _
    (charsPrefix_implies_contains _ _ (charsPrefix_self_append _ _))

/-- C8 counterexample: the sequential evaluator exports its scratch artifact
to the path drawn by the OS temp-file generator; for the token abc123xy and
tested threshold -50 that path contains no rendering of the threshold, and
the path is identical for two different thresholds, so the claimed naming
property fails in the sequential evaluator. -/
theorem C8_seq_scratch_name_cex :
    strContains (thresholdStr (-50)) (seq_temp_path (-50) "abc123xy") = false
    ∧ seq_temp_path (-50) "abc123xy" = seq_temp_path (-10) "abc123xy" :=
  ⟨by decide, rfl⟩

/-- C8 (amended): the concurrent evaluator's scratch name contains both the
rendered tested threshold and the uniqueness token, and distinct tokens give
distinct paths; the sequential evaluator's scratch path instead comes from
the OS temp-name generator and does not depend on the threshold at all. -/
theorem C8_scratch_naming (outputDir name : String) (t : ℚ) (tok : String) :
    strContains (thresholdStr t) (task_temp_path outputDir name t tok) = true
    ∧ strContains tok (task_temp_path outputDir name t tok) = true
    ∧ (∀ tok₂, task_temp_path outputDir name t tok =
        task_temp_path outputDir name t tok₂ → tok = tok₂)
    ∧ (∀ t₂, seq_temp_path t tok = seq_temp_path t₂ tok) := by
  refine ⟨?_, ?_, ?_, fun _ => rfl⟩
  · refine strContains_of_eq_append _ (outputDir ++ "/" ++ (name ++ "_thresh_"))
      ("_" ++ tok ++ ".temp.wav") _ ?_
    unfold task_temp_path join_path
    apply String.ext
    simp [String.data_append, List.append_assoc]
  · refine strContains_of_eq_append _
      (outputDir ++ "/" ++ (name ++ "_thresh_" ++ thresholdStr t ++ "_"))
      ".temp.wav" _ ?_
    unfold task_temp_path join_path
    apply String.ext
    simp [String.data_append, List.append_assoc]
  · intro tok₂ h
    have hd := congrArg String.data h
    unfold task_temp_path join_path at hd
    simp only [String.data_append, List.append_assoc] at hd
    apply String.ext
    have h1 := List.append_cancel_left hd
    have h2 := List.append_cancel_left h1
    have h3 := List.append_cancel_left h2
    have h4 := List.append_cancel_left h3
    have h5 := List.append_cancel_left h4
    have h6 := List.append_cancel_left h5
    exact List.append_cancel_right h6

theorem C8_scratch_naming_witness :
    strContains (thresholdStr (-50))
      (task_temp_path "/tmp/work" "song" (-50) "1712.5") = true
    ∧ "1712.5" = "1712.5" :=
  ⟨(C8_scratch_naming "/tmp/work" "song" (-50) "1712.5").1,
    (C8_scratch_naming "/tmp/work" "song" (-50) "1712.5").2.2.1 "1712.5" rfl⟩

/-- C9: process_audio always returns a (success, message) pair and never
propagates an exception: with unloaded audio it immediately returns the
failure pair, and its result then does not depend on any other input; when
the body raises, the outer handler returns the prefixed error pair; when the
body finishes normally, its pair is returned unchanged. -/
theorem C9_process_audio_total (p : ProcParams) :
    (p.audioLoaded = false → process_audio p = (false, "音频未加载")
      ∧ ∀ q : ProcParams, q.audioLoaded = false →
          process_audio p = process_audio q)
    ∧ (∀ e, p.audioLoaded = true → process_audio_body p = Except.error e →
        process_audio p = (false, "处理错误: " ++ e))
    ∧ (∀ r, p.audioLoaded = true → process_audio_body p = Except.ok r →
        process_audio p = r) := by
  refine ⟨?_, ?_, ?_⟩
  · intro h
    refine ⟨by simp [process_audio, h], ?_⟩
    intro q hq
    simp [process_audio, h, hq]
  · intro e h he
    simp [process_audio, h, he]
  · intro r h hr
    simp [process_audio, h, hr]

theorem C9_process_audio_total_witness :
    process_audio pUnloaded = (false, "音频未加载") :=
  ((C9_process_audio_total pUnloaded).1 rfl).1

end VoiceMatch
